import Mathlib

/-!
Verification of the diff module of depdive (`src/depdive/src/diff.rs`).

The development shallowly embeds the commit-resolution heuristics
(`get_head_commit_oid_for_version_from_tags` and
`get_head_commit_oid_for_version_from_cargo_toml`), the subtree scoping
(`get_subdirectory_tree`), the file-level diff classification
(`get_crate_source_file_diff_report`), the report assembly of
`analyze_crate_source_diff`, and the two-version diff entry point
(`get_git_source_version_diff_info`).

Conventions used throughout:
* git object ids (`Oid`) are modelled as `Nat`;
* filesystem paths are modelled as lists of path components
  (`List String`), matching Rust `Path` component semantics
  (`Path::ends_with` compares whole components, `Path::file_name()`
  is `none` exactly for the empty/root path in the cases reachable here);
* tag names, crate names and version strings are `String`s; regex
  matching is modelled over `String.data` (`List Char`).  Tag names never
  contain newline characters (git forbids them in ref names), so the
  regex `.` metacharacter is modelled as matching any character.
-/

namespace Depdive

/-- The regex character class `[1-9]`. -/
def digit19 (c : Char) : Bool := decide ('1' ≤ c) && decide (c ≤ '9')

/-- The glob pre-filter `*{version}` passed to `repo.tag_names`: a tag is a
candidate iff the version string is a suffix of the tag name. -/
def globSuffix (version tag : String) : Bool :=
  let v := version.data
  let s := tag.data
  decide (v.length ≤ s.length) && (s.drop (s.length - v.length) == v)

/-- The first heuristic regex `^(?:.*[^1-9])?{version}$` (the version string
has its dots escaped, so it is matched literally): either the tag is exactly
the version, or the tag ends with the version and the character immediately
before that suffix is not a digit 1-9. -/
def matchesStage1 (version tag : String) : Bool :=
  let v := version.data
  let s := tag.data
  (s == v) ||
    (decide (v.length + 1 ≤ s.length) && (s.drop (s.length - v.length) == v) &&
      !digit19 (s.getD (s.length - v.length - 1) ' '))

/-- `occursAt needle hay i` holds iff `needle` occurs in `hay` starting at
index `i`. -/
def occursAt (needle hay : List Char) (i : Nat) : Bool :=
  ((hay.drop i).take needle.length) == needle

/-- The second heuristic regex `^.*{name}(?:.*[^1-9])?{version}$`: the tag
ends with the version, and before that suffix the crate name occurs,
followed by either nothing or by a segment whose last character is not a
digit 1-9. -/
def matchesStage2 (name version tag : String) : Bool :=
  let v := version.data
  let n := name.data
  let s := tag.data
  decide (v.length ≤ s.length) && (s.drop (s.length - v.length) == v) &&
    (let p := s.take (s.length - v.length)
     (List.range (p.length + 1)).any (fun i =>
       occursAt n p i &&
         (let g := p.drop (i + n.length)
          (g == ([] : List Char)) || !digit19 (g.getD (g.length - 1) ' '))))

/-- The regex class `\W` (non-word character), over the ASCII alphabet the
crate names and tags use. -/
def nonWordChar (c : Char) : Bool := !(c.isAlphanum || c == '_')

/-- The third heuristic regex `^.*{name}\W*{version}$`: the tag ends with the
version, and before that suffix the crate name occurs followed only by
non-word characters. -/
def matchesStage3 (name version tag : String) : Bool :=
  let v := version.data
  let n := name.data
  let s := tag.data
  decide (v.length ≤ s.length) && (s.drop (s.length - v.length) == v) &&
    (let p := s.take (s.length - v.length)
     (List.range (p.length + 1)).any (fun i =>
       occursAt n p i && (p.drop (i + n.length)).all nonWordChar))

/-- The deduplication step `let unique_commits: HashSet<Oid> =
hm.values().cloned().collect()`: the set of distinct commit ids the
surviving tags point to. -/
def uniqueCommits (tags : List (String × Nat)) : List Nat :=
  (tags.map Prod.snd).dedup

/-- The filter loop of `get_head_commit_oid_for_version_from_tags`: for each
pattern in turn, drop the tags that fail the pattern, deduplicate the
remaining tags by the commit they point to, and return that commit as soon
as exactly one unique commit remains; if the patterns are exhausted, return
`none`. -/
def tagFilterLoop : List (String → Bool) → List (String × Nat) → Option Nat
  | [], _ => none
  | f :: fs, tags =>
    match uniqueCommits (tags.filter (fun t => f t.1)) with
    | [c] => some c
    | _ => tagFilterLoop fs (tags.filter (fun t => f t.1))

/-- Cumulative application of a list of tag filters, in order. -/
def applyFilters (fs : List (String → Bool)) (tags : List (String × Nat)) :
    List (String × Nat) :=
  fs.foldl (fun ts f => ts.filter (fun t => f t.1)) tags

/-- The three regex filter stages, in the order the source tries them. -/
def stageFilters (name version : String) : List (String → Bool) :=
  [matchesStage1 version, matchesStage2 name version, matchesStage3 name version]

/-- The candidate tags surviving the `*{version}` glob pre-filter, with the
commit id each tag peels to. -/
def candidateTags (version : String) (tags : List (String × Nat)) :
    List (String × Nat) :=
  tags.filter (fun t => globSuffix version t.1)

/-- `DiffAnalyzer::get_head_commit_oid_for_version_from_tags`, over the
repository's tags given as pairs of tag name and the commit id the tag
points to. -/
def get_head_commit_oid_for_version_from_tags (name version : String)
    (tags : List (String × Nat)) : Option Nat :=
  tagFilterLoop (stageFilters name version) (candidateTags version tags)

/-! ### The Cargo.toml history walk -/

/-- A commit as seen by the history walk of
`get_head_commit_oid_for_version_from_cargo_toml`:

* `oid` — the commit id;
* `parents` — the ids of the commit's parents, in order
  (`commit.parent_count()` is `parents.length`, `commit.parent(0)` is the
  head of the list);
* `deltaNewPaths` — the `new_file` paths (as component lists) of the deltas
  of `repo.diff_tree_to_tree(parent_tree, tree)` against the first parent;
  a delta whose new file has no path is recorded as `[]` (the source
  substitutes `Path::new("")`);
* `versionAt` — the result of checking out the commit, locating the
  package's `Cargo.toml` via `locate_package_toml` and reading its
  `package.version`; `none` when `locate_package_toml` fails at that
  commit. -/
structure WalkCommit where
  oid : Nat
  parents : List Nat
  deltaNewPaths : List (List String)
  versionAt : Option String
deriving DecidableEq

/-- `repo.find_commit(oid)` over the modelled commit list. -/
def findCommit (repo : List WalkCommit) (oid : Nat) : Option WalkCommit :=
  repo.find? (fun c => c.oid == oid)

/-- Parse a non-empty all-digit character run as a number (one numeric
component of a semantic version). -/
def parseNatDigits (cs : List Char) : Option Nat :=
  if cs.isEmpty then none
  else if cs.all Char.isDigit then
    some (cs.foldl (fun n c => n * 10 + (c.toNat - 48)) 0)
  else none

/-- Split a character list on the dots. -/
def splitOnDot : List Char → List (List Char)
  | [] => [[]]
  | c :: rest =>
    let r := splitOnDot rest
    if c = '.' then [] :: r
    else
      match r with
      | h :: t => (c :: h) :: t
      | [] => [[c]]

/-- `semver::Version::from_str` restricted to plain `major.minor.patch`
versions (the only shape the verified claims exercise; pre-release and
build metadata are out of scope, as the spec itself notes their handling
is unspecified). -/
def parseVer (s : String) : Option (Nat × Nat × Nat) :=
  match splitOnDot s.data with
  | [a, b, c] =>
    match parseNatDigits a, parseNatDigits b, parseNatDigits c with
    | some x, some y, some z => some (x, y, z)
    | _, _, _ => none
  | _ => none

/-- Strict order on parsed `major.minor.patch` versions. -/
def semverLtTriple (a b : Nat × Nat × Nat) : Bool :=
  decide (a.1 < b.1) ||
    (a.1 == b.1 &&
      (decide (a.2.1 < b.2.1) || (a.2.1 == b.2.1 && decide (a.2.2 < b.2.2))))

/-- The comparison `Version::from_str(&post) > Version::from_str(&prior)`
of the source.  Both sides are `Result`s; with the derived `Result`
ordering `Ok _ < Err _`, so a parse failure on the right makes the
comparison false and a parse failure on the left (with the right side
parsing) makes it true.  Two parse failures compare by error contents,
which the model cannot observe; it returns `false` there, and no verified
claim exercises that corner. -/
def resultVerGt (post prior : String) : Bool :=
  match parseVer post, parseVer prior with
  | some a, some b => semverLtTriple b a
  | none, some _ => true
  | some _, none => false
  | none, none => false

/-- The delta test of the walk: some delta's `new_file` path ends (as a
path component) with `Cargo.toml`. -/
def touchesCargoToml (c : WalkCommit) : Bool :=
  c.deltaNewPaths.any (fun p => p.getLast? == some "Cargo.toml")

/-- One iteration of the walk's revwalk loop decides whether the commit is
recorded in `version_commit`:

* merge commits (two or more parents) are skipped;
* a single-parent commit qualifies when a delta against its parent touched
  `Cargo.toml`, the version at the commit equals the target, and either
  the parent has a located version that is strictly smaller (case 1:
  version updated) or the parent has no located version (case 2:
  `Cargo.toml` added or package renamed);
* a parentless commit qualifies when the version at the commit equals the
  target (case 3: initial commit). -/
def commitQualifies (repo : List WalkCommit) (version : String)
    (c : WalkCommit) : Bool :=
  match c.parents with
  | [] => c.versionAt == some version
  | [p] =>
    touchesCargoToml c && (c.versionAt == some version) &&
      (match findCommit repo p with
       | some prev =>
         match prev.versionAt with
         | some prior => resultVerGt version prior
         | none => true
       | none => false)
  | _ :: _ :: _ => false

/-- `DiffAnalyzer::get_head_commit_oid_for_version_from_cargo_toml`.  The
commit list is given in the order the revwalk yields it (`Sort::TIME`
from the pushed head: time-descending, newest first).  The loop body never
breaks: every qualifying commit overwrites `version_commit`, so the final
value is the last qualifying commit of the traversal. -/
def get_head_commit_oid_for_version_from_cargo_toml
    (repo : List WalkCommit) (version : String) : Option Nat :=
  repo.foldl
    (fun acc c => if commitQualifies repo version c then some c.oid else acc)
    none

/-- Follows the spec's words, for comparison with the source: "Traversal
stops at the first satisfying commit found walking from head backward",
i.e. the walk would return the first qualifying commit in revwalk order
(the qualifying commit closest to the head). -/
def specWalkFirstQualifying (repo : List WalkCommit) (version : String) :
    Option Nat :=
  (repo.find? (fun c => commitQualifies repo version c)).map WalkCommit.oid

/-- A concrete history, newest commit first, exercising the walk: the
package's manifest is bumped 1.0.0 -> 2.0.0 in commit 1, deleted in
commit 2, and re-added at version 2.0.0 (under a new directory) in
commit 3, the commit closest to the head.  Both commit 1 and commit 3
qualify for version 2.0.0. -/
def exHistory : List WalkCommit :=
  [⟨3, [2], [["pkg", "Cargo.toml"]], some "2.0.0"⟩,
   ⟨2, [1], [["Cargo.toml"]], none⟩,
   ⟨1, [0], [["Cargo.toml"]], some "2.0.0"⟩,
   ⟨0, [], [], some "1.0.0"⟩]

/-- A concrete history whose head commit is a merge commit that touches the
manifest at the target version. -/
def mergeHistory : List WalkCommit :=
  [⟨7, [3, 4], [["Cargo.toml"]], some "1.0.0"⟩,
   ⟨3, [], [], some "1.0.0"⟩,
   ⟨4, [], [], none⟩]

/-! ### Trees and subtree scoping -/

/-- A git object reachable from a tree: either a tree (directory snapshot,
a list of named entries) or a blob (file).  Content addressing makes two
equal objects the same object, so the object stands for its own id. -/
inductive GitObj where
  | tree (entries : List (String × GitObj))
  | blob (content : String)

/-- Entry lookup by name within one tree level. -/
def lookupEntry (entries : List (String × GitObj)) (name : String) :
    Option GitObj :=
  match entries with
  | [] => none
  | (n, o) :: rest => if n = name then some o else lookupEntry rest name

/-- `Tree::get_path` followed by `to_object`: resolve a relative component
path inside a tree to the object it denotes, if any. -/
def getPath (o : GitObj) (path : List String) : Option GitObj :=
  match path with
  | [] => some o
  | n :: rest =>
    match o with
    | .blob _ => none
    | .tree entries =>
      match lookupEntry entries n with
      | none => none
      | some child => getPath child rest

/-- Whether a git object is a tree (`repo.find_tree` succeeds on its id). -/
def isTreeObj : GitObj → Bool
  | .tree _ => true
  | .blob _ => false

/-- `DiffAnalyzer::get_subdirectory_tree`: an empty relative path (no
file-name component) marks the repository root and returns the input tree
unchanged; otherwise the path is resolved within the tree
(`tree.get_path`, failing when absent) and the result must be a tree
(`repo.find_tree`, failing on a blob). -/
def get_subdirectory_tree (tree : GitObj) (path : List String) :
    Except String GitObj :=
  match path with
  | [] => .ok tree
  | _ :: _ =>
    match getPath tree path with
    | none => .error "path not found in tree"
    | some o => if isTreeObj o then .ok o else .error "object is not a tree"

/-! ### File diff classification and the source-diff report -/

/-- The `git2::Delta` status of a diff delta. -/
inductive DeltaStatus where
  | added
  | modified
  | deleted
  | renamed
  | copied
  | typechange
  | unmodified
  | unreadable
  | untracked
  | ignored
  | conflicted
deriving DecidableEq

/-- A diff delta as consumed by `get_crate_source_file_diff_report`: the
optional paths of its new and old sides and its status. -/
structure DiffDelta where
  new_file_path : Option String
  old_file_path : Option String
  status : DeltaStatus
deriving DecidableEq

/-- The path chosen for a delta:
`delta.new_file().path().or_else(|| delta.old_file().path())`. -/
def deltaPath (d : DiffDelta) : Option String :=
  match d.new_file_path with
  | some p => some p
  | none => d.old_file_path

/-- The fixed ignore-list of registry-churn files. -/
def ignore_paths : List String :=
  [".cargo_vcs_info.json", "Cargo.toml", "Cargo.toml.orig", "Cargo.lock",
   "README.md", "CHANGELOG.md", "LICENSE.md", "LICENSE-MIT",
   "LICENSE-APACHE", "crates-io.md"]

/-- The three path sets of the report (`HashSet<String>` in the source,
modelled as duplicate-free lists via `addToSet`). -/
structure FileDiffStats where
  files_added : List String
  files_modified : List String
  files_deleted : List String
deriving DecidableEq

/-- `HashSet::insert`. -/
def addToSet (p : String) (l : List String) : List String :=
  if p ∈ l then l else p :: l

/-- The `match diff_delta.status()` arm of the classification loop: `Added`,
`Modified` and `Deleted` deltas are inserted into the corresponding set;
every other status falls into the wildcard arm and is dropped. -/
def applyDelta (status : DeltaStatus) (p : String) (acc : FileDiffStats) :
    FileDiffStats :=
  match status with
  | .added => { acc with files_added := addToSet p acc.files_added }
  | .modified => { acc with files_modified := addToSet p acc.files_modified }
  | .deleted => { acc with files_deleted := addToSet p acc.files_deleted }
  | _ => acc

/-- The classification loop of `get_crate_source_file_diff_report`: for each
delta take its path (a delta without any path is an error), skip paths on
the ignore-list, and classify the rest by status. -/
def collectFileDiffStats : List DiffDelta → FileDiffStats →
    Except String FileDiffStats
  | [], acc => .ok acc
  | d :: rest, acc =>
    match deltaPath d with
    | none => .error "no file path for delta"
    | some p =>
      if p ∈ ignore_paths then collectFileDiffStats rest acc
      else collectFileDiffStats rest (applyDelta d.status p acc)

/-- `DiffAnalyzer::get_crate_source_file_diff_report`. -/
def get_crate_source_file_diff_report (deltas : List DiffDelta) :
    Except String FileDiffStats :=
  collectFileDiffStats deltas ⟨[], [], []⟩

/-- `CrateSourceDiffReport`. -/
structure CrateSourceDiffReport where
  name : String
  version : String
  release_commit_found : Option Bool
  release_commit_analyzed : Option Bool
  is_different : Option Bool
  file_diff_stats : Option FileDiffStats
deriving DecidableEq

/-- `CrateSourceDiffReport::default()` with name and version filled in. -/
def emptyReport (name version : String) : CrateSourceDiffReport :=
  ⟨name, version, none, none, none, none⟩

/-- The report built on the success path of `analyze_crate_source_diff`:
`is_different` is set to `!files_added.is_empty() ||
!files_modified.is_empty()`. -/
def comparisonReport (name version : String) (stats : FileDiffStats) :
    CrateSourceDiffReport :=
  { name := name
    version := version
    release_commit_found := some true
    release_commit_analyzed := some true
    is_different :=
      some (!stats.files_added.isEmpty || !stats.files_modified.isEmpty)
    file_diff_stats := some stats }

/-! ### The orchestration of `analyze_crate_source_diff`

The model follows the function from the point where the upstream clone
(`git_repo`) exists, and threads that repository's working-tree checkout
state (the id of the commit whose tree is checked out) through every exit
path.  The crates.io-side repository (`crate_repo`) is a different
repository and never has its checkout changed, so it is not part of the
state. -/

/-- The outcomes of the fallible sub-steps of `analyze_crate_source_diff`,
in source order:

* `starterCommit` — `git_repo.head()` recorded on entry ("Keep track of
  the current state to reset before return");
* `resolvedCommit` — the result of `get_head_commit_oid_for_version`
  (which restores any checkout it performs before returning `Ok`);
* `remoteOk` — whether `setup_remote` (and the `find_commit`/`tree` calls
  before the checkout) succeed; these run before any checkout of
  `git_repo`;
* `locateOk` — whether `locate_package_toml` succeeds at the release
  commit, after `git_repo.checkout_tree(release commit tree)`;
* `subdirOk` — whether the steps between the locate and the final reset
  (`get_subdirectory_tree`, `diff_tree_to_tree`,
  `get_crate_source_file_diff_report`) succeed;
* `stats` — the file diff stats produced on the full success path. -/
structure AnalyzeInputs where
  starterCommit : Nat
  resolvedCommit : Option Nat
  remoteOk : Bool
  locateOk : Bool
  subdirOk : Bool
  stats : FileDiffStats
deriving DecidableEq

/-- `DiffAnalyzer::analyze_crate_source_diff` from the acquisition of the
upstream clone onward.  The second component of the result is the commit
whose tree `git_repo` has checked out when control returns. -/
def analyze_crate_source_diff (name version : String) (inp : AnalyzeInputs) :
    Except String CrateSourceDiffReport × Nat :=
  match inp.resolvedCommit with
  | none =>
    (.ok { emptyReport name version with release_commit_found := some false },
     inp.starterCommit)
  | some head =>
    if !inp.remoteOk then (.error "remote setup failed", inp.starterCommit)
    else
      -- `git_repo.checkout_tree(release commit tree)`: state is now `head`
      if !inp.locateOk then
        (.ok { emptyReport name version with
                 release_commit_found := some true
                 release_commit_analyzed := some false },
         head)
      else if !inp.subdirOk then (.error "diff computation failed", head)
      else
        -- `git_repo.checkout_tree(git_repo_starter_commit)`, then `Ok`
        (.ok (comparisonReport name version inp.stats), inp.starterCommit)

/-! ### The two-version diff entry point -/

/-- The error taxonomy visible to callers of
`get_git_source_version_diff_info`: the typed `HeadCommitNotFoundError`
(carrying crate name and version, and recoverable by downcast) against
every other (generic) failure. -/
inductive DiffError where
  | headCommitNotFound (crate_name : String) (version : String)
  | other (msg : String)
deriving DecidableEq

/-- `VersionDiffInfo`: the two resolved commits and the two scoped trees
the diff is computed from (`diff_tree_to_tree(tree_a, tree_b)`). -/
structure VersionDiffInfo where
  commit_a : Nat
  commit_b : Nat
  tree_a : GitObj
  tree_b : GitObj

/-- `DiffAnalyzer::get_git_source_version_diff_info`.  The repository
operations are supplied as oracles: `locate` is the result of
`locate_package_toml` on the repository, `resolve` maps a version string
to `get_head_commit_oid_for_version`'s result, `find_tree` maps a commit
id to its tree.  The source takes `toml_path.parent()` (failing only when
the locate result has no parent, i.e. is empty) and scopes both versions'
trees to that directory. -/
def get_git_source_version_diff_info (name : String)
    (locate : Except DiffError (List String))
    (resolve : String → Option Nat)
    (find_tree : Nat → Except DiffError GitObj)
    (version_a version_b : String) : Except DiffError VersionDiffInfo :=
  match locate with
  | .error e => .error e
  | .ok toml_path =>
    if toml_path = [] then .error (.other "Cannot find crate directory")
    else
      let dir := toml_path.dropLast
      match resolve version_a with
      | none => .error (.headCommitNotFound name version_a)
      | some ca =>
        match find_tree ca with
        | .error e => .error e
        | .ok ta =>
          match get_subdirectory_tree ta dir with
          | .error e => .error (.other e)
          | .ok sa =>
            match resolve version_b with
            | none => .error (.headCommitNotFound name version_b)
            | some cb =>
              match find_tree cb with
              | .error e => .error e
              | .ok tb =>
                match get_subdirectory_tree tb dir with
                | .error e => .error (.other e)
                | .ok sb => .ok ⟨ca, cb, sa, sb⟩

/-! ### Helper lemmas -/

theorem exists_mem_cons_split {α : Type} (a : α) (l : List α) (P : α → Prop) :
    (∃ x, x ∈ a :: l ∧ P x) ↔ P a ∨ ∃ x, x ∈ l ∧ P x := by
  constructor
  · rintro ⟨x, hx, hP⟩
    rcases List.mem_cons.mp hx with rfl | hx
    · exact Or.inl hP
    · exact Or.inr ⟨x, hx, hP⟩
  · rintro (hP | ⟨x, hx, hP⟩)
    · exact ⟨a, List.mem_cons_self _ _, hP⟩
    · exact ⟨x, List.mem_cons_of_mem _ hx, hP⟩

theorem uniqueCommits_length_le {l' l : List (String × Nat)}
    (h : l'.Sublist l) :
    (uniqueCommits l').length ≤ (uniqueCommits l).length := by
  unfold uniqueCommits
  rw [← List.card_toFinset, ← List.card_toFinset]
  apply Finset.card_le_card
  intro x hx
  rw [List.mem_toFinset] at hx ⊢
  exact (h.map Prod.snd).subset hx

theorem applyFilters_sublist (fs : List (String → Bool))
    (tags : List (String × Nat)) : (applyFilters fs tags).Sublist tags := by
  induction fs generalizing tags with
  | nil => exact List.Sublist.refl _
  | cons f fs ih =>
    have hstep :
        applyFilters (f :: fs) tags =
          applyFilters fs (tags.filter (fun t => f t.1)) := rfl
    rw [hstep]
    exact (ih _).trans (List.filter_sublist _)

theorem tagFilterLoop_none (fs : List (String → Bool)) :
    ∀ tags : List (String × Nat),
      2 ≤ (uniqueCommits (applyFilters fs tags)).length →
      tagFilterLoop fs tags = none := by
  induction fs with
  | nil => intro tags _; rfl
  | cons f fs ih =>
    intro tags h
    have h2 : 2 ≤ (uniqueCommits
        (applyFilters fs (tags.filter (fun t => f t.1)))).length := h
    have hr : 2 ≤ (uniqueCommits (tags.filter (fun t => f t.1))).length :=
      le_trans h2 (uniqueCommits_length_le (applyFilters_sublist _ _))
    unfold tagFilterLoop
    split
    · rename_i c heq
      rw [heq] at hr
      simp at hr
    · exact ih _ h2

/-! ### Claim theorems: tag heuristic (C2, C3) -/

/-- C2: after the regex filter stage and deduplication by pointed-to commit,
the tag heuristic returns the commit as soon as exactly one unique commit
remains after filter stage 1, and returns `none` whenever two or more
unique commits remain after all three filter stages (resolution then falls
through to the manifest-history walk, see
`get_head_commit_oid_for_version` in the source). -/
theorem tag_heuristic_unique_and_ambiguous (name version : String)
    (tags : List (String × Nat)) :
    (∀ c, uniqueCommits ((candidateTags version tags).filter
        (fun t => matchesStage1 version t.1)) = [c] →
      get_head_commit_oid_for_version_from_tags name version tags = some c) ∧
    (2 ≤ (uniqueCommits (applyFilters (stageFilters name version)
        (candidateTags version tags))).length →
      get_head_commit_oid_for_version_from_tags name version tags = none) := by
  constructor
  · intro c hc
    show tagFilterLoop (stageFilters name version) (candidateTags version tags)
        = some c
    unfold stageFilters tagFilterLoop
    rw [hc]
  · intro h
    exact tagFilterLoop_none _ _ h

theorem tag_heuristic_unique_and_ambiguous_witness :
    get_head_commit_oid_for_version_from_tags "pkg" "1.2.3"
      [("v1.2.3", 5)] = some 5 ∧
    get_head_commit_oid_for_version_from_tags "pkg" "1.2.3"
      [("pkg-1.2.3", 1), ("xpkg-1.2.3", 2)] = none :=
  ⟨(tag_heuristic_unique_and_ambiguous "pkg" "1.2.3" [("v1.2.3", 5)]).1 5
      (by decide),
   (tag_heuristic_unique_and_ambiguous "pkg" "1.2.3"
      [("pkg-1.2.3", 1), ("xpkg-1.2.3", 2)]).2 (by decide)⟩

/-- C3 counterexample: with the only candidate tag `v10.1.8`, resolving
version `1.8` does NOT return `none`: the occurrence of `1.8` at the end
of `v10.1.8` is preceded by `.` (not by a digit 1-9), so the tag passes
filter stage 1 and, being the single unique commit, is returned. -/
theorem stage1_accepts_version_after_dot :
    get_head_commit_oid_for_version_from_tags "pkg" "1.8"
      [("v10.1.8", 7)] = some 7 := by decide

/-- C3 amended: the stage-1 filter rejects a tag when the version occurrence
is immediately preceded by a digit 1-9 — version `0.1.8` does not match
inside `10.1.8`, so a repository tagged only `v10.1.8` resolves `0.1.8`
to no result — while an occurrence preceded by a non-digit (version `1.8`
inside `v10.1.8`, preceded by `.`) passes the filter. -/
theorem stage1_rejects_digit_before_version :
    matchesStage1 "0.1.8" "v10.1.8" = false ∧
    get_head_commit_oid_for_version_from_tags "pkg" "0.1.8"
      [("v10.1.8", 7)] = none ∧
    matchesStage1 "1.8" "v10.1.8" = true := by decide

/-! ### Claim theorems: the Cargo.toml history walk (C1, C9) -/

/-- C1: evaluating the walk on a history where two commits qualify for
version 2.0.0 — commit 1 (ordinary version bump, chronologically earliest)
and commit 3 (manifest re-added at the target, closest to head).  The
source's loop never breaks and every qualifying commit overwrites
`version_commit`, so the walk returns the chronologically earliest
qualifying commit (oid 1), not the most recent qualifying commit (oid 3)
that the first-match-from-head traversal described by the spec would
return. -/
theorem cargo_toml_walk_returns_earliest_qualifying :
    get_head_commit_oid_for_version_from_cargo_toml exHistory "2.0.0" = some 1 ∧
    specWalkFirstQualifying exHistory "2.0.0" = some 3 := by decide

theorem walk_foldl_qualifying (repo : List WalkCommit) (version : String) :
    ∀ (l : List WalkCommit) (acc : Option Nat) (o : Nat),
      l.foldl (fun a c =>
        if commitQualifies repo version c then some c.oid else a) acc = some o →
      (∃ c, c ∈ l ∧ commitQualifies repo version c = true ∧ c.oid = o) ∨
        acc = some o := by
  intro l
  induction l with
  | nil => intro acc o h; exact Or.inr h
  | cons c rest ih =>
    intro acc o h
    rcases ih (if commitQualifies repo version c then some c.oid else acc) o h
      with ⟨c', hc', hq, ho⟩ | hacc
    · exact Or.inl ⟨c', List.mem_cons_of_mem _ hc', hq, ho⟩
    · by_cases hq : commitQualifies repo version c = true
      · rw [if_pos hq] at hacc
        exact Or.inl ⟨c, List.mem_cons_self _ _, hq, Option.some.inj hacc⟩
      · rw [if_neg hq] at hacc
        exact Or.inr hacc

theorem commitQualifies_parents_le_one {repo : List WalkCommit}
    {version : String} {c : WalkCommit}
    (h : commitQualifies repo version c = true) : c.parents.length ≤ 1 := by
  unfold commitQualifies at h
  rcases hps : c.parents with _ | ⟨a, t⟩
  · simp [hps]
  · rcases t with _ | ⟨b, u⟩
    · simp [hps]
    · rw [hps] at h
      simp at h

/-- C9: the manifest-history walk never returns a merge commit (a commit
with two or more parents), even one whose deltas touch `Cargo.toml`: the
revwalk loop skips any commit with `parent_count() > 1` before the
qualification checks run. -/
theorem walk_never_returns_merge_commit (repo : List WalkCommit)
    (version : String) (c : WalkCommit)
    (hnd : (repo.map WalkCommit.oid).Nodup) (hc : c ∈ repo)
    (hm : 2 ≤ c.parents.length) :
    get_head_commit_oid_for_version_from_cargo_toml repo version ≠
      some c.oid := by
  intro h
  rcases walk_foldl_qualifying repo version repo none c.oid h with
    ⟨c', hc', hq, ho⟩ | habs
  · have hcc : c' = c := List.inj_on_of_nodup_map hnd hc' hc ho
    subst hcc
    have := commitQualifies_parents_le_one hq
    omega
  · exact Option.noConfusion habs

theorem walk_never_returns_merge_commit_witness :
    get_head_commit_oid_for_version_from_cargo_toml mergeHistory "1.0.0" ≠
      some 7 :=
  walk_never_returns_merge_commit mergeHistory "1.0.0"
    ⟨7, [3, 4], [["Cargo.toml"]], some "1.0.0"⟩ (by decide) (by decide)
    (by decide)

/-! ### Claim theorems: checkout restoration (C4) -/

/-- C4: a concrete run of `analyze_crate_source_diff` in which the release
commit (oid 1) resolves and differs from the starter commit (oid 0), and
`locate_package_toml` fails at the release commit.  The function returns
the partial report (`release_commit_found = true`,
`release_commit_analyzed = false`) while the repository is still checked
out at the release commit: the early return skips the reset the function
performs only on its full-success path, so the pre-call checkout state is
not restored on this exit path. -/
theorem analyze_checkout_left_at_release_commit :
    (analyze_crate_source_diff "pkg" "1.0.0"
        ⟨0, some 1, true, false, true, ⟨[], [], []⟩⟩).1 =
      Except.ok { emptyReport "pkg" "1.0.0" with
                    release_commit_found := some true
                    release_commit_analyzed := some false } ∧
    (analyze_crate_source_diff "pkg" "1.0.0"
        ⟨0, some 1, true, false, true, ⟨[], [], []⟩⟩).2 = 1 ∧
    (1 : Nat) ≠ 0 :=
  ⟨rfl, rfl, by decide⟩

/-! ### Claim theorems: subtree scoping (C8) -/

/-- C8: scoping a tree to the repository root (the empty relative path, the
one with no file-name component) returns the input tree unchanged, and
scoping to a non-empty path returns exactly the nested tree that the path
resolves to inside the input tree, failing when the path does not exist in
the tree. -/
theorem subdirectory_tree_root_identity_and_lookup (t : GitObj)
    (p : List String) (hp : p ≠ []) :
    get_subdirectory_tree t [] = Except.ok t ∧
    (∀ es, getPath t p = some (GitObj.tree es) →
      get_subdirectory_tree t p = Except.ok (GitObj.tree es)) ∧
    (getPath t p = none →
      get_subdirectory_tree t p = Except.error "path not found in tree") ∧
    (∀ u, get_subdirectory_tree t p = Except.ok u → getPath t p = some u) := by
  rcases p with _ | ⟨n, rest⟩
  · exact absurd rfl hp
  · refine ⟨rfl, ?_, ?_, ?_⟩
    · intro es h
      unfold get_subdirectory_tree
      rw [h]
      rfl
    · intro h
      unfold get_subdirectory_tree
      rw [h]
    · intro u h
      unfold get_subdirectory_tree at h
      rcases hg : getPath t (n :: rest) with _ | o
      · rw [hg] at h
        exact Except.noConfusion h
      · rw [hg] at h
        rcases o with es | c
        · simp only [isTreeObj, if_true] at h
          exact congrArg some (Except.ok.inj h)
        · simp [isTreeObj] at h

theorem subdirectory_tree_witness :
    get_subdirectory_tree (GitObj.tree [("sub", GitObj.tree [])]) ["sub"] =
      Except.ok (GitObj.tree []) :=
  (subdirectory_tree_root_identity_and_lookup
    (GitObj.tree [("sub", GitObj.tree [])]) ["sub"] (by simp)).2.1 [] rfl

/-! ### Claim theorems: typed head-commit-not-found error (C5) -/

/-- C5: whenever commit resolution yields no result for either input
version, `get_git_source_version_diff_info` fails with the typed
`HeadCommitNotFoundError` carrying the package name and the version that
failed to resolve (the first version if it did not resolve, otherwise the
second); when neither version resolves, the error names a version that
indeed did not resolve; and the typed error is distinguishable from every
generic failure. -/
theorem version_diff_head_commit_not_found (name va vb : String)
    (locate : Except DiffError (List String)) (resolve : String → Option Nat)
    (find_tree : Nat → Except DiffError GitObj) (tp : List String)
    (hl : locate = Except.ok tp) (htp : tp ≠ []) :
    (resolve va = none →
      get_git_source_version_diff_info name locate resolve find_tree va vb =
        Except.error (DiffError.headCommitNotFound name va)) ∧
    (∀ ca ta sa, resolve va = some ca → find_tree ca = Except.ok ta →
      get_subdirectory_tree ta tp.dropLast = Except.ok sa →
      resolve vb = none →
      get_git_source_version_diff_info name locate resolve find_tree va vb =
        Except.error (DiffError.headCommitNotFound name vb)) ∧
    ((resolve va = none ∧ resolve vb = none) →
      ∃ v, get_git_source_version_diff_info name locate resolve find_tree va vb
          = Except.error (DiffError.headCommitNotFound name v) ∧
        resolve v = none) ∧
    (∀ v m, (DiffError.headCommitNotFound name v : DiffError) ≠
      DiffError.other m) := by
  subst hl
  have hfirst : resolve va = none →
      get_git_source_version_diff_info name (Except.ok tp) resolve find_tree
        va vb = Except.error (DiffError.headCommitNotFound name va) := by
    intro h
    simp [get_git_source_version_diff_info, htp, h]
  refine ⟨hfirst, ?_, ?_, ?_⟩
  · intro ca ta sa h1 h2 h3 h4
    simp [get_git_source_version_diff_info, htp, h1, h2, h3, h4]
  · rintro ⟨h1, _⟩
    exact ⟨va, hfirst h1, h1⟩
  · intro v m h
    exact DiffError.noConfusion h

theorem version_diff_head_commit_not_found_witness :
    get_git_source_version_diff_info "pkg" (Except.ok ["Cargo.toml"])
      (fun _ => none) (fun _ => Except.ok (GitObj.tree [])) "0.8.0" "0.9.0" =
      Except.error (DiffError.headCommitNotFound "pkg" "0.8.0") :=
  (version_diff_head_commit_not_found "pkg" "0.8.0" "0.9.0"
    (Except.ok ["Cargo.toml"]) (fun _ => none)
    (fun _ => Except.ok (GitObj.tree [])) ["Cargo.toml"] rfl (by simp)).1 rfl

/-! ### Claim theorems: diff classification and is_different (C6, C7, C10) -/

theorem mem_addToSet {q p : String} {l : List String} :
    q ∈ addToSet p l ↔ q = p ∨ q ∈ l := by
  unfold addToSet
  split
  · rename_i hin
    constructor
    · exact fun hq => Or.inr hq
    · rintro (rfl | hq)
      · exact hin
      · exact hq
  · exact List.mem_cons

theorem mem_applyDelta_added {q : String} {st : DeltaStatus} {p : String}
    {acc : FileDiffStats} :
    q ∈ (applyDelta st p acc).files_added ↔
      (st = DeltaStatus.added ∧ q = p) ∨ q ∈ acc.files_added := by
  cases st <;> simp [applyDelta, mem_addToSet]

theorem mem_applyDelta_modified {q : String} {st : DeltaStatus} {p : String}
    {acc : FileDiffStats} :
    q ∈ (applyDelta st p acc).files_modified ↔
      (st = DeltaStatus.modified ∧ q = p) ∨ q ∈ acc.files_modified := by
  cases st <;> simp [applyDelta, mem_addToSet]

theorem mem_applyDelta_deleted {q : String} {st : DeltaStatus} {p : String}
    {acc : FileDiffStats} :
    q ∈ (applyDelta st p acc).files_deleted ↔
      (st = DeltaStatus.deleted ∧ q = p) ∨ q ∈ acc.files_deleted := by
  cases st <;> simp [applyDelta, mem_addToSet]

theorem or_iff_or_of_not_left {A B R : Prop} (hB : ¬B) :
    (A ∨ R) ↔ (A ∨ (B ∨ R)) := by
  constructor
  · rintro (h | h)
    · exact Or.inl h
    · exact Or.inr (Or.inr h)
  · rintro (h | h | h)
    · exact Or.inl h
    · exact absurd h hB
    · exact Or.inr h

theorem or_left_shuffle {A B R : Prop} : ((B ∨ A) ∨ R) ↔ (A ∨ (B ∨ R)) := by
  constructor
  · rintro ((h | h) | h)
    · exact Or.inr (Or.inl h)
    · exact Or.inl h
    · exact Or.inr (Or.inr h)
  · rintro (h | h | h)
    · exact Or.inl (Or.inr h)
    · exact Or.inl (Or.inl h)
    · exact Or.inr h

/-- Membership characterization of the classification loop: a path is in one
of the three output sets iff it was already in the accumulator or some
delta with that path, a status of the corresponding kind and a
non-ignored path contributed it. -/
theorem collectFileDiffStats_mem (deltas : List DiffDelta) :
    ∀ (acc s : FileDiffStats), collectFileDiffStats deltas acc = Except.ok s →
    ∀ p : String,
      (p ∈ s.files_added ↔ p ∈ acc.files_added ∨
        ∃ d, d ∈ deltas ∧ deltaPath d = some p ∧ p ∉ ignore_paths ∧
          d.status = DeltaStatus.added) ∧
      (p ∈ s.files_modified ↔ p ∈ acc.files_modified ∨
        ∃ d, d ∈ deltas ∧ deltaPath d = some p ∧ p ∉ ignore_paths ∧
          d.status = DeltaStatus.modified) ∧
      (p ∈ s.files_deleted ↔ p ∈ acc.files_deleted ∨
        ∃ d, d ∈ deltas ∧ deltaPath d = some p ∧ p ∉ ignore_paths ∧
          d.status = DeltaStatus.deleted) := by
  induction deltas with
  | nil =>
    intro acc s h p
    have hacc : acc = s := by simpa [collectFileDiffStats] using h
    subst hacc
    simp
  | cons d rest ih =>
    intro acc s h p
    unfold collectFileDiffStats at h
    split at h
    · exact Except.noConfusion h
    · rename_i q hd
      split at h
      · rename_i hin
        have hih := ih acc s h p
        have hno : ∀ st : DeltaStatus,
            ¬(deltaPath d = some p ∧ p ∉ ignore_paths ∧ d.status = st) := by
          rintro st ⟨h1, h2, _⟩
          rw [hd] at h1
          obtain rfl : q = p := Option.some.inj h1
          exact h2 hin
        refine ⟨?_, ?_, ?_⟩
        · rw [hih.1, exists_mem_cons_split]
          exact or_iff_or_of_not_left (hno DeltaStatus.added)
        · rw [hih.2.1, exists_mem_cons_split]
          exact or_iff_or_of_not_left (hno DeltaStatus.modified)
        · rw [hih.2.2, exists_mem_cons_split]
          exact or_iff_or_of_not_left (hno DeltaStatus.deleted)
      · rename_i hin
        have hih := ih (applyDelta d.status q acc) s h p
        have hbr : ∀ st : DeltaStatus,
            (deltaPath d = some p ∧ p ∉ ignore_paths ∧ d.status = st) ↔
              (d.status = st ∧ p = q) := by
          intro st
          constructor
          · rintro ⟨h1, _, h3⟩
            rw [hd] at h1
            exact ⟨h3, (Option.some.inj h1).symm⟩
          · rintro ⟨h3, rfl⟩
            exact ⟨hd, hin, h3⟩
        refine ⟨?_, ?_, ?_⟩
        · rw [hih.1, mem_applyDelta_added, exists_mem_cons_split,
            hbr DeltaStatus.added]
          exact or_left_shuffle
        · rw [hih.2.1, mem_applyDelta_modified, exists_mem_cons_split,
            hbr DeltaStatus.modified]
          exact or_left_shuffle
        · rw [hih.2.2, mem_applyDelta_deleted, exists_mem_cons_split,
            hbr DeltaStatus.deleted]
          exact or_left_shuffle

/-- The added set is empty when no delta has status `Added`. -/
theorem files_added_nil_of_no_added (deltas : List DiffDelta)
    (s : FileDiffStats) (h : get_crate_source_file_diff_report deltas = Except.ok s)
    (hno : ∀ d, d ∈ deltas → d.status ≠ DeltaStatus.added) :
    s.files_added = [] := by
  have hch := collectFileDiffStats_mem deltas ⟨[], [], []⟩ s h
  rcases hs : s.files_added with _ | ⟨q, rest⟩
  · rfl
  · have hq : q ∈ s.files_added := by
      rw [hs]; exact List.mem_cons_self _ _
    rcases (hch q).1.mp hq with habs | ⟨d, hd, _, _, h3⟩
    · simp at habs
    · exact absurd h3 (hno d hd)

/-- The modified set is empty when no delta has status `Modified`. -/
theorem files_modified_nil_of_no_modified (deltas : List DiffDelta)
    (s : FileDiffStats) (h : get_crate_source_file_diff_report deltas = Except.ok s)
    (hno : ∀ d, d ∈ deltas → d.status ≠ DeltaStatus.modified) :
    s.files_modified = [] := by
  have hch := collectFileDiffStats_mem deltas ⟨[], [], []⟩ s h
  rcases hs : s.files_modified with _ | ⟨q, rest⟩
  · rfl
  · have hq : q ∈ s.files_modified := by
      rw [hs]; exact List.mem_cons_self _ _
    rcases (hch q).2.1.mp hq with habs | ⟨d, hd, _, _, h3⟩
    · simp at habs
    · exact absurd h3 (hno d hd)

/-- C6: in every report that reaches the comparison stage, `is_different` is
true iff the added set or the modified set is non-empty; and a diff whose
deltas are all deletions yields `is_different = false`. -/
theorem is_different_iff_added_or_modified (name version : String)
    (stats : FileDiffStats) :
    ((comparisonReport name version stats).is_different = some true ↔
      (stats.files_added ≠ [] ∨ stats.files_modified ≠ [])) ∧
    (∀ deltas : List DiffDelta,
      (∀ d, d ∈ deltas → d.status = DeltaStatus.deleted) →
      ∀ s : FileDiffStats, get_crate_source_file_diff_report deltas = Except.ok s →
      (comparisonReport name version s).is_different = some false) := by
  constructor
  · simp [comparisonReport, List.isEmpty_iff, Decidable.or_iff_not_imp_left]
  · intro deltas hdel s hs
    have hadd : s.files_added = [] :=
      files_added_nil_of_no_added deltas s hs (fun d hd => by
        rw [hdel d hd]; simp)
    have hmod : s.files_modified = [] :=
      files_modified_nil_of_no_modified deltas s hs (fun d hd => by
        rw [hdel d hd]; simp)
    simp [comparisonReport, hadd, hmod]

theorem is_different_iff_added_or_modified_witness :
    (comparisonReport "pkg" "1.0.0"
        (⟨["a"], [], []⟩ : FileDiffStats)).is_different = some true ∧
    (comparisonReport "pkg" "1.0.0"
        (⟨[], [], ["b"]⟩ : FileDiffStats)).is_different = some false :=
  ⟨(is_different_iff_added_or_modified "pkg" "1.0.0" ⟨["a"], [], []⟩).1.mpr
      (Or.inl (by simp)),
   (is_different_iff_added_or_modified "pkg" "1.0.0" ⟨[], [], ["b"]⟩).2
      [⟨some "b", none, DeltaStatus.deleted⟩] (by decide) ⟨[], [], ["b"]⟩ rfl⟩

/-- C7: a path on the fixed ignore-list never appears in any of the three
sets of the produced `FileDiffStats`, even if the file changed; and every
delta with a non-ignored path and status `Added`, `Modified` or `Deleted`
is classified into the corresponding set by path. -/
theorem diff_report_ignore_list_and_classification (deltas : List DiffDelta)
    (s : FileDiffStats)
    (h : get_crate_source_file_diff_report deltas = Except.ok s) :
    (∀ p, p ∈ ignore_paths →
      p ∉ s.files_added ∧ p ∉ s.files_modified ∧ p ∉ s.files_deleted) ∧
    (∀ d, d ∈ deltas → ∀ p, deltaPath d = some p → p ∉ ignore_paths →
      (d.status = DeltaStatus.added → p ∈ s.files_added) ∧
      (d.status = DeltaStatus.modified → p ∈ s.files_modified) ∧
      (d.status = DeltaStatus.deleted → p ∈ s.files_deleted)) := by
  have hch := collectFileDiffStats_mem deltas ⟨[], [], []⟩ s h
  constructor
  · intro p hp
    refine ⟨?_, ?_, ?_⟩
    · intro hmem
      rcases (hch p).1.mp hmem with habs | ⟨d, _, _, hni, _⟩
      · simp at habs
      · exact hni hp
    · intro hmem
      rcases (hch p).2.1.mp hmem with habs | ⟨d, _, _, hni, _⟩
      · simp at habs
      · exact hni hp
    · intro hmem
      rcases (hch p).2.2.mp hmem with habs | ⟨d, _, _, hni, _⟩
      · simp at habs
      · exact hni hp
  · intro d hd p hp hni
    refine ⟨?_, ?_, ?_⟩
    · intro hst
      exact (hch p).1.mpr (Or.inr ⟨d, hd, hp, hni, hst⟩)
    · intro hst
      exact (hch p).2.1.mpr (Or.inr ⟨d, hd, hp, hni, hst⟩)
    · intro hst
      exact (hch p).2.2.mpr (Or.inr ⟨d, hd, hp, hni, hst⟩)

theorem diff_report_ignore_list_witness :
    ("Cargo.toml" ∉ (⟨["src/main.rs"], [], []⟩ : FileDiffStats).files_added ∧
     "Cargo.toml" ∉ (⟨["src/main.rs"], [], []⟩ : FileDiffStats).files_modified ∧
     "Cargo.toml" ∉ (⟨["src/main.rs"], [], []⟩ : FileDiffStats).files_deleted) ∧
    "src/main.rs" ∈ (⟨["src/main.rs"], [], []⟩ : FileDiffStats).files_added :=
  ⟨(diff_report_ignore_list_and_classification
      [⟨some "src/main.rs", none, DeltaStatus.added⟩,
       ⟨some "Cargo.toml", none, DeltaStatus.modified⟩]
      ⟨["src/main.rs"], [], []⟩ rfl).1 "Cargo.toml" (by decide),
   ((diff_report_ignore_list_and_classification
      [⟨some "src/main.rs", none, DeltaStatus.added⟩,
       ⟨some "Cargo.toml", none, DeltaStatus.modified⟩]
      ⟨["src/main.rs"], [], []⟩ rfl).2
      ⟨some "src/main.rs", none, DeltaStatus.added⟩ (by decide)
      "src/main.rs" rfl (by decide)).1 rfl⟩

/-- C10: a path appears in one of the three sets only through a delta whose
status is `Added`, `Modified` or `Deleted`; a delta of any other status
(renamed, copied, type-changed, ...) is silently omitted even when its
path is not on the ignore-list, and when no delta has status `Added` or
`Modified` the assembled report's `is_different` is false. -/
theorem unclassified_deltas_never_reported (deltas : List DiffDelta)
    (s : FileDiffStats)
    (h : get_crate_source_file_diff_report deltas = Except.ok s) :
    (∀ p, p ∈ s.files_added ∨ p ∈ s.files_modified ∨ p ∈ s.files_deleted →
      ∃ d, d ∈ deltas ∧ deltaPath d = some p ∧ p ∉ ignore_paths ∧
        (d.status = DeltaStatus.added ∨ d.status = DeltaStatus.modified ∨
         d.status = DeltaStatus.deleted)) ∧
    ((∀ d, d ∈ deltas →
        d.status ≠ DeltaStatus.added ∧ d.status ≠ DeltaStatus.modified) →
      ∀ name version,
        (comparisonReport name version s).is_different = some false) := by
  have hch := collectFileDiffStats_mem deltas ⟨[], [], []⟩ s h
  constructor
  · intro p hp
    rcases hp with hp | hp | hp
    · rcases (hch p).1.mp hp with habs | ⟨d, hd, h1, h2, h3⟩
      · simp at habs
      · exact ⟨d, hd, h1, h2, Or.inl h3⟩
    · rcases (hch p).2.1.mp hp with habs | ⟨d, hd, h1, h2, h3⟩
      · simp at habs
      · exact ⟨d, hd, h1, h2, Or.inr (Or.inl h3)⟩
    · rcases (hch p).2.2.mp hp with habs | ⟨d, hd, h1, h2, h3⟩
      · simp at habs
      · exact ⟨d, hd, h1, h2, Or.inr (Or.inr h3)⟩
  · intro hall name version
    have hadd : s.files_added = [] :=
      files_added_nil_of_no_added deltas s h (fun d hd => (hall d hd).1)
    have hmod : s.files_modified = [] :=
      files_modified_nil_of_no_modified deltas s h (fun d hd => (hall d hd).2)
    simp [comparisonReport, hadd, hmod]

theorem unclassified_deltas_never_reported_witness :
    (comparisonReport "pkg" "1.0.0"
        (⟨[], [], []⟩ : FileDiffStats)).is_different = some false :=
  (unclassified_deltas_never_reported
    [⟨some "a.rs", some "b.rs", DeltaStatus.renamed⟩] ⟨[], [], []⟩ rfl).2
    (by decide) "pkg" "1.0.0"

end Depdive
